import Mathlib

/-!
Shallow embedding of `src/proxy_manager.py` (class `ProxyManager`) and proofs
about the fetch → parse → probe → score → select → emit pipeline.

Modelling conventions:
* Python `float` values (latencies, speeds, scores, timestamps) are modelled as `ℚ`.
* Python `int` is modelled as `ℤ` (ports); descriptor dictionaries are modelled by the
  record `Proxy` whose optional fields are `Option`-typed (a `none` field corresponds to
  an absent dictionary key, `proxy.get(k, d)` becomes `Option.getD`).
* Network and clock effects (HTTP fetches in `fetch_proxies`, socket connects and wall
  clock in `test_proxy`/`test_speed`) are parameters: a list of per-source fetch outcomes
  and a probe oracle `net : Proxy → ProbeOutcome`.
* Exceptions are modelled explicitly: a Python `try`/`except` block becomes a `match` on
  an `Except`/sum-typed attempt.  Note that the module `proxy_manager.py` never imports
  `base64`, so inside `parse_text_list` every `ss://` and `vmess://` branch raises
  `NameError` at the reference to `base64`; that exception is caught by the per-line
  handler.  The embedding reflects this faithfully (`LineOut.failed`).
* Python `dict` (insertion-ordered) is modelled as an association list `List (String × _)`
  built by appending new keys at the end, exactly like CPython's dict.
-/

namespace PM

/-- Normalized proxy descriptor: the dictionaries produced by `parse_text_list` /
consumed by `test_proxy` and `update_singbox_config`.  `server = ""` and `port = 0`
double as the absent/falsy values tested by `if not all([protocol, server, port])`. -/
structure Proxy where
  type : String := ""
  server : String := ""
  port : ℤ := 0
  method : Option String := none
  password : Option String := none
  uuid : Option String := none
  transportType : Option String := none
  upMbps : Option ℤ := none
  downMbps : Option ℤ := none
deriving DecidableEq

/-- Outcome of the network for one probed descriptor: whether `connect_ex` returns 0,
the measured wall-clock latency in ms, the value returned by `test_speed`, and the
`time.time()` stamp recorded as `last_tested`. -/
structure ProbeOutcome where
  connectOk : Bool := false
  latency : ℚ := 0
  speed : ℚ := 0
  now : ℚ := 0

/-- Result dictionary built by `test_proxy` on success: `{**proxy, "latency": …,
"speed": …, "score": …, "last_tested": …}`. -/
structure Tested where
  p : Proxy
  latency : ℚ
  speed : ℚ
  score : ℚ
  lastTested : ℚ
deriving DecidableEq

/-- One entry of the emitted `outbounds` array.  Fields that a given outbound kind does
not set are `none` (the Python code builds dictionaries with exactly the set keys).
`outs`/`dflt` model the `"outbounds"`/`"default"` keys of the selector entry. -/
structure Outbound where
  type : String
  tag : String
  server : Option String := none
  port : Option ℤ := none
  outs : Option (List String) := none
  dflt : Option String := none
  upMbps : Option ℤ := none
  downMbps : Option ℤ := none
  method : Option String := none
  password : Option String := none
  uuid : Option String := none
  transport : Option String := none
deriving DecidableEq

/-- The emitted document (`config` in `update_singbox_config`). -/
structure ConfigDoc where
  logLevel : String
  outbounds : List Outbound
deriving DecidableEq

/-- Per-source fetch outcome, abstracting `requests.get` + `json.loads`:
`fail` covers any exception (network error, bad status, JSON decode error),
`body` is the raw text used for `.txt` URLs, and the `json*` constructors are the
shapes distinguished by `fetch_proxies` for non-`.txt` URLs. -/
inductive Fetched where
  | fail
  | body (s : String)
  | jsonList (ps : List Proxy)
  | jsonOutbounds (ps : List Proxy)
  | jsonSingle (p : Proxy)
  | jsonOther
deriving DecidableEq

/-- Outcome of the `try` body for one stripped line in `parse_text_list`:
`skip` = the body ran and appended nothing (no `://` in the line),
`failed` = an exception was raised and caught by the per-line `except`,
`parsed` = one descriptor was appended. -/
inductive LineOut where
  | skip
  | failed
  | parsed (p : Proxy)
deriving DecidableEq

/-- Decides whether the first list is a prefix of the second (structural recursion, so
the kernel can evaluate it — the core `String` primitives recurse on byte positions
and do not reduce definitionally). -/
def beginsWith : List Char → List Char → Bool
  | [], _ => true
  | _ :: _, [] => false
  | a :: as, b :: bs => a = b && beginsWith as bs

/-- Decides whether the first list is a suffix of the second. -/
def charSuffix (suf l : List Char) : Bool :=
  beginsWith suf.reverse l.reverse

/-- Fuel-driven splitting of a character list at every occurrence of a non-empty
separator, scanning left to right (the semantics of Python `str.split(sep)`).
`cur` holds the current piece in reverse. -/
def charSplitFuel (sep : List Char) : ℕ → List Char → List Char → List (List Char)
  | 0, rem, cur => [cur.reverse ++ rem]
  | fuel + 1, rem, cur =>
    match rem with
    | [] => [cur.reverse]
    | c :: rest =>
      if beginsWith sep (c :: rest) then
        cur.reverse :: charSplitFuel sep fuel ((c :: rest).drop sep.length) []
      else
        charSplitFuel sep fuel rest (c :: cur)

/-- Python `s.split(sep)` for a non-empty separator. -/
def charSplit (sep l : List Char) : List (List Char) :=
  charSplitFuel sep (l.length + 1) l []

/-- Rejoins pieces with a separator (inverse of one `charSplit` step, used to model
`line.split('://', 1)` via a full split). -/
def joinWith (sep : List Char) : List (List Char) → List Char
  | [] => []
  | [x] => x
  | x :: y :: xs => x ++ sep ++ joinWith sep (y :: xs)

/-- Characters stripped by Python `str.strip()` (ASCII whitespace). -/
def isPySpace (c : Char) : Bool :=
  c = ' ' ∨ c = '\t' ∨ c = '\n' ∨ c = '\r' ∨ c = '\x0b' ∨ c = '\x0c'

/-- Python `s.strip()`. -/
def pyStrip (s : String) : String :=
  ⟨((s.data.dropWhile isPySpace).reverse.dropWhile isPySpace).reverse⟩

/-- Python `s.lower()` (ASCII case folding suffices for the protocol names here). -/
def pyLower (s : String) : String :=
  ⟨s.data.map Char.toLower⟩

/-- Python `str.splitlines` restricted to `\n`-separated payloads: split on `'\n'` and
drop the trailing empty piece that splitting produces when the text ends in `'\n'`
(so `"" ↦ []`, `"a\n" ↦ ["a"]`, `"a\n\nb" ↦ ["a", "", "b"]`). -/
def pySplitlines (s : String) : List String :=
  let parts := (charSplit ['\n'] s.data).map fun l => (⟨l⟩ : String)
  if parts.getLast? = some "" then parts.dropLast else parts

/-- Value of one ASCII decimal digit character. -/
def digitVal? (c : Char) : Option ℕ :=
  if '0' ≤ c ∧ c ≤ '9' then some (c.toNat - 48) else none

/-- Value of a non-empty all-digit character list, most significant first. -/
def digitsVal? (l : List Char) : Option ℕ :=
  if l = [] then none
  else l.foldl (fun acc c => acc.bind fun a => (digitVal? c).map fun d => 10 * a + d) (some 0)

/-- Python `int(s)` on the strings reaching it here: optional sign followed by decimal
digits, surrounding whitespace stripped; `none` models the raised `ValueError`
(digit-group underscores are not modelled). -/
def pyInt? (s : String) : Option ℤ :=
  match (pyStrip s).data with
  | '-' :: rest => (digitsVal? rest).map fun n => -(n : ℤ)
  | '+' :: rest => (digitsVal? rest).map fun n => (n : ℤ)
  | l => (digitsVal? l).map fun n => (n : ℤ)

/-- Body of the `try` block of `parse_text_list` for one stripped line.
`line.split('://', 1)` is modelled by splitting on the first `"://"` occurrence.
For `ss`/`vmess` the body evaluates `base64.…` — but `base64` is never imported by
`proxy_manager.py`, so a `NameError` is raised before anything else: both branches
are `failed`.  Other schemes take `rest.split(':')`, which must produce exactly two
pieces for the tuple unpacking to succeed, then `int(port)`. -/
def parseLineAttempt (line : String) : LineOut :=
  match charSplit [':', '/', '/'] line.data with
  | [] => .skip
  | [_] => .skip
  | protocol :: restParts =>
    let rest := joinWith [':', '/', '/'] restParts
    if (⟨protocol⟩ : String) = "ss" ∨ (⟨protocol⟩ : String) = "vmess" then
      .failed
    else
      match charSplit [':'] rest with
      | [server, portStr] =>
        match pyInt? ⟨portStr⟩ with
        | some n => .parsed { type := ⟨protocol⟩, server := ⟨server⟩, port := n }
        | none => .failed
      | _ => .failed

/-- Contribution of one raw line to the result list of `parse_text_list`: strip,
skip empty and `#`-comment lines, then run the guarded body. -/
def lineStep (raw : String) : List Proxy :=
  let line := pyStrip raw
  if line ≠ "" ∧ ¬ beginsWith ['#'] line.data then
    match parseLineAttempt line with
    | .parsed p => [p]
    | _ => []
  else []

/-- The loop of `parse_text_list` over an explicit list of lines. -/
def parseLines (ls : List String) : List Proxy :=
  ls.flatMap lineStep

/-- `ProxyManager.parse_text_list` (src lines 74–114). -/
def parse_text_list (text : String) : List Proxy :=
  parseLines (pySplitlines text)

/-- The fixed `subscription_urls` of `ProxyManager.__init__`. -/
def subscription_urls : List String :=
  ["https://raw.githubusercontent.com/sbwml/hysteria2/master/config.json",
   "https://raw.githubusercontent.com/freefq/free/master/v2",
   "https://raw.githubusercontent.com/barry-far/V2ray-Configs/main/All_Configs_Sub.txt",
   "https://raw.githubusercontent.com/TheSpeedX/PROXY-List/master/http.txt"]

/-- Descriptors contributed by one source inside the per-URL `try` of `fetch_proxies`:
`.txt` URLs go through `parse_text_list`, other URLs are dispatched on the JSON shape;
a failure or an unexpected shape contributes nothing (logged and skipped). -/
def perSource (url : String) (r : Fetched) : List Proxy :=
  if charSuffix ['.', 't', 'x', 't'] url.data then
    match r with
    | .body s => parse_text_list s
    | _ => []
  else
    match r with
    | .jsonList ps => ps
    | .jsonOutbounds ps => ps
    | .jsonSingle p => [p]
    | _ => []

/-- Concatenation of all per-source contributions (the `proxies` list of
`fetch_proxies` just before the fallback check). -/
def rawFetched (responses : List Fetched) : List Proxy :=
  (subscription_urls.zip responses).flatMap fun e => perSource e.1 e.2

/-- The hardcoded fallback descriptor appended by `fetch_proxies` when nothing was
fetched (src lines 63–69). -/
def fallbackProxy : Proxy :=
  { type := "shadowsocks", server := "ss://example.com", port := 8388,
    method := some "2022-blake3-aes-256-gcm", password := some "test1234" }

/-- `ProxyManager.fetch_proxies` (src lines 29–72), parameterized by the per-source
outcomes. -/
def fetch_proxies (responses : List Fetched) : List Proxy :=
  let proxies := rawFetched responses
  if proxies = [] then [fallbackProxy] else proxies

/-- The score formula of `test_proxy` (src line 140):
`score = (1000 / (latency + 1)) + speed`. -/
def scoreOf (latency speed : ℚ) : ℚ :=
  1000 / (latency + 1) + speed

/-- `ProxyManager.test_proxy` (src lines 116–153), with the socket and clock behaviour
supplied by the oracle `net`.  The guard models `if not all([protocol, server, port])`
(`protocol` is `proxy.get("type", "").lower()`); an unreachable endpoint
(`connect_ex ≠ 0`) yields `none`. -/
def testProxy (net : Proxy → ProbeOutcome) (p : Proxy) : Option Tested :=
  if pyLower p.type = "" ∨ p.server = "" ∨ p.port = 0 then none
  else
    let o := net p
    if o.connectOk then
      some { p := p, latency := o.latency, speed := o.speed,
             score := scoreOf o.latency o.speed, lastTested := o.now }
    else none

/-- Grouping key used by `select_best_proxies`: `proxy["type"].lower()`. -/
def protoKey (t : Tested) : String :=
  pyLower t.p.type

/-- The `modern_protocols` set of `select_best_proxies` (src line 176). -/
def modernProtocols : List String :=
  ["hysteria2", "shadowsocks", "vmess", "tuic", "trojan"]

/-- One step of building `by_protocol`: append the element to the existing key's list,
or add a new key at the end (CPython dict insertion order). -/
def insertGrouped (t : Tested) : List (String × List Tested) → List (String × List Tested)
  | [] => [(protoKey t, [t])]
  | e :: rest =>
    if e.1 = protoKey t then (e.1, e.2 ++ [t]) :: rest
    else e :: insertGrouped t rest

/-- The `by_protocol` dictionary of `select_best_proxies` (src lines 179–185). -/
def groupByProto (tested : List Tested) : List (String × List Tested) :=
  tested.foldl (fun m t => insertGrouped t m) []

/-- Comparator realizing `sorted(plist, key=lambda x: x["score"], reverse=True)`:
a stable sort that puts `a` before `b` when `b.score ≤ a.score`. -/
def scoreGE (a b : Tested) : Prop :=
  b.score ≤ a.score

instance : DecidableRel scoreGE := fun a b =>
  inferInstanceAs (Decidable (b.score ≤ a.score))

instance : IsTotal Tested scoreGE :=
  ⟨fun a b => le_total b.score a.score⟩

instance : IsTrans Tested scoreGE :=
  ⟨fun _ _ _ hab hbc => le_trans hbc hab⟩

/-- `self.max_proxies_per_type` (src line 26). -/
def max_proxies_per_type : ℕ := 3

/-- The selection loop of `select_best_proxies` (src lines 187–197): iterate the
groups in insertion order, drop the `http` group when a modern protocol was seen,
stable-sort each surviving group by descending score and truncate to
`max_proxies_per_type`. -/
def selectGroups (hasModern : Bool) : List (String × List Tested) → List (String × List Tested)
  | [] => []
  | e :: rest =>
    if e.1 = "http" ∧ hasModern then selectGroups hasModern rest
    else (e.1, (List.insertionSort scoreGE e.2).take max_proxies_per_type)
      :: selectGroups hasModern rest

/-- `select_best_proxies` from the list of successful probe results (the contents of
`tested_proxies` after the executor join, src lines 175–200). -/
def groupSelect (tested : List Tested) : List (String × List Tested) :=
  selectGroups (tested.any fun t => decide (protoKey t ∈ modernProtocols)) (groupByProto tested)

/-- `ProxyManager.select_best_proxies` (src lines 169–200): probe every descriptor
(`executor.map` preserves input order; `filter(None, …)` keeps the successes), then
group, rank and truncate. -/
def selectBest (net : Proxy → ProbeOutcome) (proxies : List Proxy) :
    List (String × List Tested) :=
  groupSelect (proxies.filterMap (testProxy net))

/-- Decimal digit character (`'0'`–`'9'`). -/
def digitChar10 (n : ℕ) : Char :=
  Char.ofNat (48 + n)

/-- Fuel-driven decimal rendering of a natural number, most significant digit first
(structural recursion so that the kernel can evaluate it). -/
def decDigitsAux : ℕ → ℕ → List Char
  | 0, _ => []
  | fuel + 1, n =>
    if n < 10 then [digitChar10 n]
    else decDigitsAux fuel (n / 10) ++ [digitChar10 (n % 10)]

/-- Python `str(i)` for a natural number: decimal digits, no sign. -/
def natToDec (n : ℕ) : String :=
  ⟨decDigitsAux (n + 1) n⟩

/-- The synthetic tag `f"{protocol}-{i}"`. -/
def tagStr (protocol : String) (i : ℕ) : String :=
  protocol ++ "-" ++ natToDec i

/-- The selector's tag list (src line 214):
`[f"{proto}-{i}" for proto in proxies for i in range(len(proxies[proto]))]`. -/
def selTags (table : List (String × List Tested)) : List String :=
  table.flatMap fun e => (List.range e.2.length).map fun i => tagStr e.1 i

/-- The selector's `"default"` tag (src line 215): first of
`hysteria2 > shadowsocks > vmess` present as a key, else the first key, with index 0. -/
def defaultTag (table : List (String × List Tested)) : String :=
  match ["hysteria2", "shadowsocks", "vmess"].find? (fun p => table.any fun e => e.1 = p) with
  | some p => tagStr p 0
  | none => tagStr (table.headD ("", [])).1 0

/-- One per-selection outbound object (src lines 220–243): mandatory
type/server/port/tag plus the protocol-specific fields with their `get` defaults
(the `vmess` transport dictionary is represented by its `"type"` value). -/
def mkOutbound (protocol : String) (i : ℕ) (t : Tested) : Outbound :=
  let base : Outbound :=
    { type := protocol, tag := tagStr protocol i,
      server := some t.p.server, port := some t.p.port }
  if protocol = "hysteria2" then
    { base with upMbps := some (t.p.upMbps.getD 100),
                downMbps := some (t.p.downMbps.getD 100),
                password := some (t.p.password.getD "") }
  else if protocol = "shadowsocks" then
    { base with method := some (t.p.method.getD "2022-blake3-aes-256-gcm"),
                password := some (t.p.password.getD "") }
  else if protocol = "vmess" then
    { base with uuid := some (t.p.uuid.getD ""),
                transport := some (t.p.transportType.getD "grpc") }
  else if protocol = "tuic" then
    { base with uuid := some (t.p.uuid.getD ""),
                password := some (t.p.password.getD "") }
  else if protocol = "trojan" then
    { base with password := some (t.p.password.getD "") }
  else
    base

/-- The `enumerate(plist)` loop body for one protocol group, carrying the 0-based
index. -/
def groupObsAux (protocol : String) (i : ℕ) : List Tested → List Outbound
  | [] => []
  | t :: ts => mkOutbound protocol i t :: groupObsAux protocol (i + 1) ts

/-- All outbound objects of one protocol group. -/
def groupOutbounds (e : String × List Tested) : List Outbound :=
  groupObsAux e.1 0 e.2

/-- The selector entry (src lines 211–216). -/
def selectorOutbound (table : List (String × List Tested)) : Outbound :=
  { type := "selector", tag := "proxy",
    outs := some (selTags table), dflt := some (defaultTag table) }

/-- The two fixed terminal outbounds (src lines 246–249). -/
def terminalOutbounds : List Outbound :=
  [{ type := "direct", tag := "direct" }, { type := "block", tag := "block" }]

/-- The document built by `update_singbox_config` before writing: the selector entry
(only when the table is non-empty), the per-selection outbounds, then direct/block. -/
def buildConfig (table : List (String × List Tested)) : ConfigDoc :=
  { logLevel := "info",
    outbounds :=
      (if table = [] then [] else [selectorOutbound table])
        ++ table.flatMap groupOutbounds
        ++ terminalOutbounds }

/-- The `open`/`json.dump` call: succeeds (`.ok`) or raises (`.error`), controlled by
the `writeOk` parameter. -/
def pyWrite (writeOk : Bool) : Except Unit Unit :=
  if writeOk then .ok () else .error ()

/-- `ProxyManager.update_singbox_config` (src lines 202–256): the whole body is inside
`try … except Exception: logging.error(…)`, so a persistence failure is swallowed —
the method always returns normally.  The result is the document now on disk
(`some cfg`) or `none` when nothing was written. -/
def update_singbox_config (writeOk : Bool) (table : List (String × List Tested)) :
    Option ConfigDoc :=
  match (do
      let cfg := buildConfig table
      let _ ← pyWrite writeOk
      pure cfg : Except Unit ConfigDoc) with
  | .ok cfg => some cfg
  | .error _ => none

/-- `ProxyManager.run` plus the `__main__` block (src lines 258–274).  The `Except`
layer records whether an exception escapes `run` (which would make the process exit
non-zero); the payload is the document written during the run, if any. -/
def runScript (responses : List Fetched) (net : Proxy → ProbeOutcome) (writeOk : Bool) :
    Except Unit (Option ConfigDoc) :=
  let proxies := fetch_proxies responses
  if proxies = [] then .ok none
  else
    let best := selectBest net proxies
    if best = [] then .ok none
    else .ok (update_singbox_config writeOk best)

/-- Process exit code: 0 when `run` returns normally, non-zero when an exception
propagates out of the `__main__` call. -/
def exitCode (responses : List Fetched) (net : Proxy → ProbeOutcome) (writeOk : Bool) : ℕ :=
  match runScript responses net writeOk with
  | .ok _ => 0
  | .error _ => 1

/-- Decoding step for decimal digit lists (specification device for proving
`natToDec` injective). -/
def decStep (a : ℕ) (c : Char) : ℕ :=
  10 * a + (c.toNat - 48)

/-- Association-list lookup (the dictionary lookup `m[k]`). -/
def lookupG (k : String) : List (String × List Tested) → Option (List Tested)
  | [] => none
  | e :: rest => if e.1 = k then some e.2 else lookupG k rest

/-- Key list of an association list (`list(m.keys())`). -/
def keysOf (m : List (String × List Tested)) : List String :=
  m.map Prod.fst

/-- The members of `tested` that fall into protocol group `k`. -/
def filterProto (k : String) (tested : List Tested) : List Tested :=
  tested.filter fun t => decide (protoKey t = k)

/-- Predicate picking the outbound entries that carry a given
(protocol, host, port) triple. -/
def tripleP (p hst : String) (prt : ℤ) (ob : Outbound) : Bool :=
  decide (ob.type = p ∧ ob.server = some hst ∧ ob.port = some prt)

/-- Fixture: probe oracle giving `a.example` latency 3 / speed 250 and everything else
latency 1 / speed 0, so that the two scores tie at 500 with different latencies. -/
def exNetTie : Proxy → ProbeOutcome := fun p =>
  if p.server = "a.example" then { connectOk := true, latency := 3, speed := 250 }
  else { connectOk := true, latency := 1, speed := 0 }

/-- Fixture: descriptor probed at latency 3. -/
def pTieA : Proxy :=
  { type := "shadowsocks", server := "a.example", port := 1 }

/-- Fixture: descriptor probed at latency 1. -/
def pTieB : Proxy :=
  { type := "shadowsocks", server := "b.example", port := 1 }

/-- Fixture: probe result of `pTieA` under `exNetTie`. -/
def tTieA : Tested :=
  { p := pTieA, latency := 3, speed := 250, score := 500, lastTested := 0 }

/-- Fixture: probe result of `pTieB` under `exNetTie`. -/
def tTieB : Tested :=
  { p := pTieB, latency := 1, speed := 0, score := 500, lastTested := 0 }

/-- Fixture: a shadowsocks descriptor; two copies of it model two sources publishing
the same (protocol, host, port) endpoint. -/
def pDup : Proxy :=
  { type := "shadowsocks", server := "1.2.3.4", port := 443 }

/-- Fixture: oracle under which every descriptor is reachable (latency 1, speed 1). -/
def exNetUp : Proxy → ProbeOutcome := fun _ =>
  { connectOk := true, latency := 1, speed := 1 }

/-- Fixture: oracle under which every connect fails. -/
def exNetDown : Proxy → ProbeOutcome := fun _ =>
  { connectOk := false }

/-- Fixture: all four subscription sources fail. -/
def allFailResponses : List Fetched :=
  [.fail, .fail, .fail, .fail]

/-- Fixture: the first (JSON) source returns a one-descriptor list, the rest fail. -/
def oneGoodResponse : List Fetched :=
  [.jsonList [pDup], .fail, .fail, .fail]

/-- Fixture: a successful vmess probe result. -/
def tVmess : Tested :=
  { p := { type := "vmess", server := "v.example", port := 2 },
    latency := 1, speed := 0, score := 500, lastTested := 0 }

/-- Fixture: a successful http probe result. -/
def tHttp : Tested :=
  { p := { type := "http", server := "h.example", port := 3 },
    latency := 1, speed := 0, score := 500, lastTested := 0 }

/-! Theorems.  First the parser claims, then the arithmetic of the score, then the
bookkeeping lemmas for grouping, sorting and tag generation, then the remaining
claims about selection and emission. -/

theorem parseLines_append (l1 l2 : List String) :
    parseLines (l1 ++ l2) = parseLines l1 ++ parseLines l2 := by
  simp [parseLines]

theorem parseLines_cons (a : String) (l : List String) :
    parseLines (a :: l) = lineStep a ++ parseLines l := by
  simp [parseLines]

theorem lineStep_of_failed (raw : String) (h : parseLineAttempt (pyStrip raw) = .failed) :
    lineStep raw = [] := by
  simp [lineStep, h]

/-- C8: a decoding or parsing exception raised while handling one line of a text
payload is caught at line granularity: the line contributes nothing, the parse of
every other line (before and after it) is unaffected, and `parseLines` — the loop
body of `parse_text_list` — is a total function, so the parser never raises. -/
theorem C8_line_granularity (pre post : List String) (bad : String)
    (h : parseLineAttempt (pyStrip bad) = .failed) :
    parseLines (pre ++ bad :: post) = parseLines pre ++ parseLines post := by
  rw [parseLines_append, parseLines_cons, lineStep_of_failed bad h]
  simp

/-- Witness for C8 at a concrete payload: an `ss://` line (which raises `NameError`
because `base64` is not imported) between two valid plain lines. -/
theorem C8_witness :
    parseLineAttempt (pyStrip "ss://YWVzOnB3ZA==@h:1#t") = .failed ∧
    parseLines ["http://a:1", "ss://YWVzOnB3ZA==@h:1#t", "socks://b:2"] =
      parseLines ["http://a:1"] ++ parseLines ["socks://b:2"] :=
  ⟨rfl, C8_line_granularity ["http://a:1"] ["socks://b:2"] "ss://YWVzOnB3ZA==@h:1#t" rfl⟩

/-- C1 (code bug): on a payload of two well-formed `ss://base64(method:password)@host:port#tag`
lines and one malformed line, `parse_text_list` returns no descriptor at all — not the
two claimed — because `proxy_manager.py` never imports `base64`, so the `ss://` branch
raises `NameError` on every line (caught by the per-line handler).  The second conjunct
isolates the failure of a single well-formed line. -/
theorem C1_ss_payload_yields_no_descriptors :
    parse_text_list
        "ss://YWVzOnB3ZA==@1.2.3.4:8388#tag\nss://YWVzOnB3ZA==@5.6.7.8:443#x\nhttp://bad"
      = [] ∧
    parseLineAttempt "ss://YWVzOnB3ZA==@1.2.3.4:8388#tag" = .failed :=
  ⟨rfl, rfl⟩

/-- C9: over non-negative latency and throughput, the score
`1000 / (latency + 1) + throughput` is strictly decreasing in latency at fixed
throughput, non-decreasing in throughput at fixed latency, and strictly positive. -/
theorem C9_score_shape :
    (∀ la lb t : ℚ, 0 ≤ la → la < lb → 0 ≤ t → scoreOf lb t < scoreOf la t) ∧
    (∀ l t1 t2 : ℚ, 0 ≤ l → t1 ≤ t2 → scoreOf l t1 ≤ scoreOf l t2) ∧
    (∀ l t : ℚ, 0 ≤ l → 0 ≤ t → 0 < scoreOf l t) := by
  refine ⟨fun la lb t hla hab _ => ?_, fun l t1 t2 _ h => ?_, fun l t hl ht => ?_⟩
  · have h1 : (0 : ℚ) < la + 1 := by linarith
    have h2 : la + 1 < lb + 1 := by linarith
    have h3 := div_lt_div_of_pos_left (show (0 : ℚ) < 1000 by norm_num) h1 h2
    unfold scoreOf
    linarith
  · unfold scoreOf
    linarith
  · have h1 : (0 : ℚ) < l + 1 := by linarith
    have h2 : (0 : ℚ) < 1000 / (l + 1) := div_pos (by norm_num) h1
    unfold scoreOf
    linarith

/-- Witness for C9 at concrete points. -/
theorem C9_witness :
    scoreOf 1 0 < scoreOf 0 0 ∧ scoreOf 0 0 ≤ scoreOf 0 1 ∧ 0 < scoreOf 0 0 :=
  ⟨C9_score_shape.1 0 1 0 le_rfl one_pos le_rfl,
   C9_score_shape.2.1 0 0 1 le_rfl zero_le_one,
   C9_score_shape.2.2 0 0 le_rfl le_rfl⟩

theorem digitChar10_ne_dash (d : ℕ) (hd : d < 10) : digitChar10 d ≠ '-' := by
  interval_cases d <;> decide

theorem toNat_digitChar10 (d : ℕ) (hd : d < 10) : (digitChar10 d).toNat = 48 + d := by
  interval_cases d <;> decide

theorem mem_decDigitsAux (f : ℕ) : ∀ n, n < f → ∀ c ∈ decDigitsAux f n,
    ∃ d, d < 10 ∧ c = digitChar10 d := by
  induction f with
  | zero => omega
  | succ f ih =>
    intro n hn c hc
    simp only [decDigitsAux] at hc
    by_cases h : n < 10
    · rw [if_pos h] at hc
      simp only [List.mem_singleton] at hc
      exact ⟨n, h, hc⟩
    · rw [if_neg h] at hc
      rcases List.mem_append.mp hc with h1 | h1
      · have hdiv : n / 10 < n := Nat.div_lt_self (by omega) (by norm_num)
        exact ih (n / 10) (by omega) c h1
      · simp only [List.mem_singleton] at h1
        exact ⟨n % 10, Nat.mod_lt _ (by norm_num), h1⟩

theorem decode_decDigitsAux (f : ℕ) : ∀ n, n < f →
    List.foldl decStep 0 (decDigitsAux f n) = n := by
  induction f with
  | zero => omega
  | succ f ih =>
    intro n hn
    simp only [decDigitsAux]
    by_cases h : n < 10
    · rw [if_pos h]
      simp [decStep, toNat_digitChar10 n h]
    · rw [if_neg h]
      have hdiv : n / 10 < n := Nat.div_lt_self (by omega) (by norm_num)
      rw [List.foldl_append, ih (n / 10) (by omega)]
      simp only [List.foldl_cons, List.foldl_nil, decStep,
        toNat_digitChar10 (n % 10) (Nat.mod_lt _ (by norm_num))]
      omega

theorem natToDec_inj (m n : ℕ) (h : natToDec m = natToDec n) : m = n := by
  have hd : decDigitsAux (m + 1) m = decDigitsAux (n + 1) n := congrArg String.data h
  have h1 := decode_decDigitsAux (m + 1) m (Nat.lt_succ_self m)
  have h2 := decode_decDigitsAux (n + 1) n (Nat.lt_succ_self n)
  rw [hd, h2] at h1
  exact h1.symm

theorem dash_not_mem_natToDec (n : ℕ) : '-' ∉ (natToDec n).data := by
  intro hc
  obtain ⟨d, hd, hcd⟩ := mem_decDigitsAux (n + 1) n (Nat.lt_succ_self n) '-' hc
  exact digitChar10_ne_dash d hd hcd.symm

theorem append_dash_inj : ∀ u v x y : List Char, '-' ∉ u → '-' ∉ v →
    u ++ '-' :: x = v ++ '-' :: y → u = v ∧ x = y := by
  intro u
  induction u with
  | nil =>
    intro v x y _ hv h
    cases v with
    | nil => simpa using h
    | cons b bs =>
      simp only [List.nil_append, List.cons_append, List.cons.injEq] at h
      exact absurd (List.mem_cons_self b bs) (h.1 ▸ hv)
  | cons a as ih =>
    intro v x y hu hv h
    cases v with
    | nil =>
      simp only [List.nil_append, List.cons_append, List.cons.injEq] at h
      exact absurd (List.mem_cons_self a as) (h.1.symm ▸ hu)
    | cons b bs =>
      simp only [List.cons_append, List.cons.injEq] at h
      obtain ⟨h1, h2⟩ := ih bs x y (fun hm => hu (List.mem_cons_of_mem a hm))
        (fun hm => hv (List.mem_cons_of_mem b hm)) h.2
      exact ⟨by rw [h.1, h1], h2⟩

theorem string_data_append (s t : String) : (s ++ t).data = s.data ++ t.data :=
  rfl

theorem string_data_ext (s t : String) (h : s.data = t.data) : s = t := by
  cases s
  cases t
  exact congrArg String.mk h

theorem tagStr_inj (p q : String) (i j : ℕ) (h : tagStr p i = tagStr q j) :
    p = q ∧ i = j := by
  have hdata : p.data ++ '-' :: (natToDec i).data = q.data ++ '-' :: (natToDec j).data := by
    have h0 := congrArg String.data h
    simpa [tagStr, string_data_append] using h0
  have hrev : (natToDec i).data.reverse ++ '-' :: p.data.reverse
      = (natToDec j).data.reverse ++ '-' :: q.data.reverse := by
    have h0 := congrArg List.reverse hdata
    simpa [List.reverse_append] using h0
  obtain ⟨h1, h2⟩ := append_dash_inj _ _ _ _
    (by simpa using dash_not_mem_natToDec i)
    (by simpa using dash_not_mem_natToDec j) hrev
  refine ⟨string_data_ext p q (by simpa using congrArg List.reverse h2), ?_⟩
  exact natToDec_inj i j (string_data_ext _ _ (by simpa using congrArg List.reverse h1))

theorem lookupG_insertGrouped_self (t : Tested) : ∀ m,
    lookupG (protoKey t) (insertGrouped t m)
      = some ((lookupG (protoKey t) m).getD [] ++ [t]) := by
  intro m
  induction m with
  | nil => simp [insertGrouped, lookupG]
  | cons e rest ih =>
    by_cases h : e.1 = protoKey t
    · simp [insertGrouped, lookupG, h]
    · simp [insertGrouped, lookupG, h, ih]

theorem lookupG_insertGrouped_ne (t : Tested) (k : String) (hk : k ≠ protoKey t) : ∀ m,
    lookupG k (insertGrouped t m) = lookupG k m := by
  intro m
  have hk2 : protoKey t ≠ k := hk.symm
  induction m with
  | nil => simp [insertGrouped, lookupG, hk2]
  | cons e rest ih =>
    by_cases h : e.1 = protoKey t
    · simp [insertGrouped, lookupG, h, hk2]
    · simp [insertGrouped, lookupG, h, ih]

theorem filterProto_cons (k : String) (t : Tested) (ts : List Tested) :
    filterProto k (t :: ts)
      = if protoKey t = k then t :: filterProto k ts else filterProto k ts := by
  simp only [filterProto, List.filter_cons]
  by_cases h : protoKey t = k <;> simp [h]

theorem lookupG_groupFold (l : List Tested) : ∀ (acc : List (String × List Tested)) (k : String),
    (lookupG k (l.foldl (fun m t => insertGrouped t m) acc)).getD []
      = (lookupG k acc).getD [] ++ filterProto k l := by
  induction l with
  | nil => intro acc k; simp [filterProto]
  | cons t ts ih =>
    intro acc k
    rw [List.foldl_cons, ih (insertGrouped t acc) k, filterProto_cons]
    by_cases h : protoKey t = k
    · rw [if_pos h, ← h, lookupG_insertGrouped_self t acc]
      simp
    · rw [if_neg h, lookupG_insertGrouped_ne t k (fun hkk => h hkk.symm) acc]

theorem lookupG_groupFold_none (l : List Tested) :
    ∀ (acc : List (String × List Tested)) (k : String),
    lookupG k (l.foldl (fun m t => insertGrouped t m) acc) = none
      ↔ (lookupG k acc = none ∧ filterProto k l = []) := by
  induction l with
  | nil => intro acc k; simp [filterProto]
  | cons t ts ih =>
    intro acc k
    rw [List.foldl_cons, ih (insertGrouped t acc) k, filterProto_cons]
    by_cases h : protoKey t = k
    · rw [if_pos h]
      constructor
      · rintro ⟨h1, -⟩
        rw [← h, lookupG_insertGrouped_self t acc] at h1
        cases h1
      · rintro ⟨-, h2⟩
        cases h2
    · rw [if_neg h, lookupG_insertGrouped_ne t k (fun hkk => h hkk.symm) acc]

theorem lookupG_groupByProto (tested : List Tested) (k : String) (l : List Tested)
    (h : lookupG k (groupByProto tested) = some l) :
    l = filterProto k tested ∧ l ≠ [] := by
  have h1 := lookupG_groupFold tested [] k
  have h2 := lookupG_groupFold_none tested [] k
  rw [groupByProto] at h
  rw [h] at h1 h2
  simp only [lookupG, Option.getD_some, Option.getD_none, List.nil_append] at h1 h2
  refine ⟨h1, fun hl => ?_⟩
  rw [hl] at h1
  simp [← h1] at h2

theorem lookupG_none_iff_not_mem_keys (k : String) : ∀ m : List (String × List Tested),
    lookupG k m = none ↔ k ∉ keysOf m := by
  intro m
  induction m with
  | nil => simp [lookupG, keysOf]
  | cons e rest ih =>
    by_cases h : e.1 = k
    · simp [lookupG, keysOf, h]
    · have h2 : ¬ k = e.1 := fun hkk => h hkk.symm
      simp [lookupG, keysOf, h, h2, ih]

theorem map_fst_insertGrouped (t : Tested) : ∀ m,
    (insertGrouped t m).map Prod.fst
      = if lookupG (protoKey t) m = none then m.map Prod.fst ++ [protoKey t]
        else m.map Prod.fst := by
  intro m
  induction m with
  | nil => simp [insertGrouped, lookupG]
  | cons e rest ih =>
    by_cases h : e.1 = protoKey t
    · simp [insertGrouped, lookupG, h]
    · simp only [insertGrouped, if_neg h, List.map_cons, ih, lookupG]
      by_cases h2 : lookupG (protoKey t) rest = none
      · simp [h2]
      · simp [h2]

theorem keysOf_insertGrouped (t : Tested) (m : List (String × List Tested)) :
    keysOf (insertGrouped t m)
      = if lookupG (protoKey t) m = none then keysOf m ++ [protoKey t] else keysOf m := by
  simp only [keysOf]
  exact map_fst_insertGrouped t m

theorem nodup_keysOf_insertGrouped (t : Tested) (m : List (String × List Tested))
    (h : (keysOf m).Nodup) : (keysOf (insertGrouped t m)).Nodup := by
  rw [keysOf_insertGrouped]
  by_cases h2 : lookupG (protoKey t) m = none
  · rw [if_pos h2]
    have h3 : protoKey t ∉ keysOf m := (lookupG_none_iff_not_mem_keys _ m).mp h2
    simp [List.nodup_append, h, h3]
  · rwa [if_neg h2]

theorem nodup_keysOf_groupFold (l : List Tested) : ∀ acc, (keysOf acc).Nodup →
    (keysOf (l.foldl (fun m t => insertGrouped t m) acc)).Nodup := by
  induction l with
  | nil => intro acc h; exact h
  | cons t ts ih =>
    intro acc h
    exact ih (insertGrouped t acc) (nodup_keysOf_insertGrouped t acc h)

theorem nodup_keysOf_groupByProto (tested : List Tested) :
    (keysOf (groupByProto tested)).Nodup :=
  nodup_keysOf_groupFold tested [] (by simp [keysOf])

theorem lookupG_of_mem (k : String) (l : List Tested) : ∀ m, (keysOf m).Nodup →
    (k, l) ∈ m → lookupG k m = some l := by
  intro m
  induction m with
  | nil => simp
  | cons e rest ih =>
    intro hnd hm
    rcases List.mem_cons.mp hm with h | h
    · rw [← h]
      simp [lookupG]
    · have hk : k ∈ keysOf rest := List.mem_map_of_mem Prod.fst h
      have hne : e.1 ≠ k := by
        intro he
        rw [keysOf, List.map_cons, List.nodup_cons] at hnd
        exact hnd.1 (he ▸ hk)
      rw [lookupG, if_neg hne]
      refine ih ?_ h
      rw [keysOf, List.map_cons, List.nodup_cons] at hnd
      exact hnd.2

theorem groupByProto_mem (tested : List Tested) (k : String) (l : List Tested)
    (h : (k, l) ∈ groupByProto tested) : l = filterProto k tested ∧ l ≠ [] :=
  lookupG_groupByProto tested k l
    (lookupG_of_mem k l (groupByProto tested) (nodup_keysOf_groupByProto tested) h)

theorem selectGroups_mem (hm : Bool) (p : String) (l : List Tested) :
    ∀ m, (p, l) ∈ selectGroups hm m →
    ∃ l0, (p, l0) ∈ m ∧ l = (List.insertionSort scoreGE l0).take max_proxies_per_type
      ∧ ¬ (p = "http" ∧ hm) := by
  intro m
  induction m with
  | nil => simp [selectGroups]
  | cons e rest ih =>
    intro h
    rw [selectGroups] at h
    by_cases hskip : e.1 = "http" ∧ hm
    · rw [if_pos hskip] at h
      obtain ⟨l0, h1, h2, h3⟩ := ih h
      exact ⟨l0, List.mem_cons_of_mem e h1, h2, h3⟩
    · rw [if_neg hskip] at h
      rcases List.mem_cons.mp h with h1 | h1
      · obtain ⟨hp, hl⟩ := Prod.mk.injEq .. ▸ h1
        refine ⟨e.2, ?_, hl, hp ▸ hskip⟩
        rw [hp]
        exact List.mem_cons_self e rest
      · obtain ⟨l0, h2, h3, h4⟩ := ih h1
        exact ⟨l0, List.mem_cons_of_mem e h2, h3, h4⟩

theorem keysOf_selectGroups_sublist (hm : Bool) :
    ∀ m, List.Sublist (keysOf (selectGroups hm m)) (keysOf m) := by
  intro m
  induction m with
  | nil => simp [selectGroups, keysOf]
  | cons e rest ih =>
    rw [selectGroups]
    by_cases hskip : e.1 = "http" ∧ hm
    · rw [if_pos hskip]
      exact List.Sublist.cons e.1 ih
    · rw [if_neg hskip]
      exact List.Sublist.cons₂ e.1 ih

theorem nodup_keysOf_selectGroups (hm : Bool) (m : List (String × List Tested))
    (h : (keysOf m).Nodup) : (keysOf (selectGroups hm m)).Nodup :=
  h.sublist (keysOf_selectGroups_sublist hm m)

theorem nodup_keysOf_groupSelect (tested : List Tested) :
    (keysOf (groupSelect tested)).Nodup :=
  nodup_keysOf_selectGroups _ _ (nodup_keysOf_groupByProto tested)

theorem groupSelect_mem (tested : List Tested) (p : String) (l : List Tested)
    (h : (p, l) ∈ groupSelect tested) :
    l = (List.insertionSort scoreGE (filterProto p tested)).take max_proxies_per_type
      ∧ l ≠ [] ∧ l.length ≤ max_proxies_per_type := by
  obtain ⟨l0, h1, h2, -⟩ := selectGroups_mem _ p l _ h
  obtain ⟨h3, h4⟩ := groupByProto_mem tested p l0 h1
  refine ⟨h3 ▸ h2, ?_, ?_⟩
  · intro hl
    rw [hl] at h2
    have h5 : (List.insertionSort scoreGE l0).length = l0.length :=
      List.length_insertionSort scoreGE l0
    have h6 := congrArg List.length h2
    rw [List.length_take, h5] at h6
    simp only [List.length_nil] at h6
    have h7 : l0.length ≠ 0 := fun hz => h4 (List.length_eq_zero.mp hz)
    rw [max_proxies_per_type] at h6
    omega
  · rw [h2, List.length_take]
    exact min_le_left _ _

theorem filter_score_orderedInsert (c : ℚ) (a : Tested) : ∀ l : List Tested,
    (List.orderedInsert scoreGE a l).filter (fun x => decide (x.score = c))
      = (a :: l).filter (fun x => decide (x.score = c)) := by
  intro l
  induction l with
  | nil => rfl
  | cons b bs ih =>
    rw [List.orderedInsert]
    by_cases hab : scoreGE a b
    · rw [if_pos hab]
    · rw [if_neg hab]
      have hlt : a.score < b.score := lt_of_not_ge hab
      by_cases ha : a.score = c
      · have hb : ¬ b.score = c := by
          intro hb
          rw [ha, hb] at hlt
          exact lt_irrefl c hlt
        simp [List.filter_cons, ha, hb, ih]
      · simp [List.filter_cons, ha, ih]

theorem filter_score_insertionSort (c : ℚ) : ∀ l : List Tested,
    (List.insertionSort scoreGE l).filter (fun x => decide (x.score = c))
      = l.filter (fun x => decide (x.score = c)) := by
  intro l
  induction l with
  | nil => rfl
  | cons a l ih =>
    rw [List.insertionSort, filter_score_orderedInsert c a (List.insertionSort scoreGE l)]
    simp only [List.filter_cons, ih]

unseal Rat.add Rat.mul Rat.inv in
/-- C2 (counterexample): the sort key of `select_best_proxies` is the score alone
(`sorted(plist, key=lambda x: x["score"], reverse=True)`), with no latency or host
tie-break.  Under `exNetTie` both probe results score 500, the first one probed has
the larger latency (3 vs 1), and the selection keeps them in input order — the
claimed ascending-latency tie-break would have put `tTieB` first. -/
theorem C2_counterexample :
    selectBest exNetTie [pTieA, pTieB] = [("shadowsocks", [tTieA, tTieB])]
      ∧ tTieA.score = tTieB.score ∧ tTieB.latency < tTieA.latency :=
  ⟨rfl, rfl, by decide⟩

/-- C2 (amended): within each protocol group the Selector orders entries by
descending score only; score ties keep their probe order (the Python sort is stable
and its key is just the score), and the result is a pure function of the probe
results, hence reproducible.  The three conjuncts: the group is the score-descending
stable sort of exactly the input members of that protocol, truncated to
`max_proxies_per_type`; it is sorted by descending score; and the sort leaves every
equal-score class in input order. -/
theorem C2_sort_by_score_stable (tested : List Tested) (p : String) (l : List Tested)
    (c : ℚ) (h : (p, l) ∈ groupSelect tested) :
    l = (List.insertionSort scoreGE (filterProto p tested)).take max_proxies_per_type
      ∧ l.Sorted scoreGE
      ∧ (List.insertionSort scoreGE (filterProto p tested)).filter
            (fun x => decide (x.score = c))
          = (filterProto p tested).filter (fun x => decide (x.score = c)) := by
  obtain ⟨h1, -, -⟩ := groupSelect_mem tested p l h
  refine ⟨h1, ?_, filter_score_insertionSort c _⟩
  rw [h1]
  exact List.Pairwise.sublist (List.take_sublist _ _)
    (List.sorted_insertionSort scoreGE (filterProto p tested))

/-- Witness for the amended C2 at a concrete one-element probe set. -/
theorem C2_sort_witness :
    ("shadowsocks", [tTieA]) ∈ groupSelect [tTieA]
      ∧ ([tTieA]
            = (List.insertionSort scoreGE (filterProto "shadowsocks" [tTieA])).take
                max_proxies_per_type
          ∧ List.Sorted scoreGE [tTieA]
          ∧ (List.insertionSort scoreGE (filterProto "shadowsocks" [tTieA])).filter
                (fun x => decide (x.score = 500))
              = (filterProto "shadowsocks" [tTieA]).filter (fun x => decide (x.score = 500))) :=
  ⟨by decide, C2_sort_by_score_stable [tTieA] "shadowsocks" [tTieA] 500 (by decide)⟩

theorem mkOutbound_type (pr : String) (i : ℕ) (t : Tested) :
    (mkOutbound pr i t).type = pr := by
  rw [mkOutbound]
  split_ifs <;> rfl

theorem mkOutbound_tag (pr : String) (i : ℕ) (t : Tested) :
    (mkOutbound pr i t).tag = tagStr pr i := by
  rw [mkOutbound]
  split_ifs <;> rfl

theorem groupObsAux_map_tag (pr : String) : ∀ (l : List Tested) (i : ℕ),
    (groupObsAux pr i l).map (fun ob => ob.tag) = (List.range' i l.length).map (tagStr pr) := by
  intro l
  induction l with
  | nil => intro i; rfl
  | cons t ts ih =>
    intro i
    simp only [groupObsAux, List.map_cons, mkOutbound_tag, List.length_cons, List.range',
      ih (i + 1)]

theorem groupOutbounds_map_tag (e : String × List Tested) :
    (groupOutbounds e).map (fun ob => ob.tag) = (List.range e.2.length).map (tagStr e.1) := by
  rw [groupOutbounds, groupObsAux_map_tag, List.range_eq_range']

theorem mem_groupObsAux_type (pr : String) (ob : Outbound) : ∀ (l : List Tested) (i : ℕ),
    ob ∈ groupObsAux pr i l → ob.type = pr := by
  intro l
  induction l with
  | nil => intro i h; cases h
  | cons t ts ih =>
    intro i h
    rcases List.mem_cons.mp h with h1 | h1
    · rw [h1]
      exact mkOutbound_type pr i t
    · exact ih (i + 1) h1

theorem length_groupObsAux (pr : String) : ∀ (l : List Tested) (i : ℕ),
    (groupObsAux pr i l).length = l.length := by
  intro l
  induction l with
  | nil => intro i; rfl
  | cons t ts ih =>
    intro i
    simp [groupObsAux, ih (i + 1)]

theorem selTags_eq_map_tag : ∀ table : List (String × List Tested),
    selTags table = (table.flatMap groupOutbounds).map (fun ob => ob.tag) := by
  intro table
  induction table with
  | nil => rfl
  | cons e rest ih =>
    simp only [selTags, List.flatMap_cons, List.map_append, groupOutbounds_map_tag]
    rw [← selTags, ih]

theorem mem_selTags (x : String) (table : List (String × List Tested))
    (h : x ∈ selTags table) :
    ∃ e, e ∈ table ∧ ∃ i, i < e.2.length ∧ x = tagStr e.1 i := by
  simp only [selTags, List.mem_flatMap, List.mem_map, List.mem_range] at h
  obtain ⟨e, he, i, hi, hx⟩ := h
  exact ⟨e, he, i, hi, hx.symm⟩

theorem nodup_selTags : ∀ table : List (String × List Tested),
    (keysOf table).Nodup → (selTags table).Nodup := by
  intro table
  induction table with
  | nil => intro h; simp [selTags]
  | cons e rest ih =>
    intro hkeys
    simp only [keysOf, List.map_cons, List.nodup_cons] at hkeys
    obtain ⟨hk1, hk2⟩ := hkeys
    have hk2n : (keysOf rest).Nodup := hk2
    simp only [selTags, List.flatMap_cons]
    rw [List.nodup_append]
    refine ⟨?_, ?_, ?_⟩
    · refine List.Nodup.map_on ?_ (List.nodup_range _)
      intro i _ j _ hij
      exact (tagStr_inj e.1 e.1 i j hij).2
    · exact ih hk2n
    · intro x hx1 hx2
      simp only [List.mem_map, List.mem_range] at hx1
      obtain ⟨i, -, hxi⟩ := hx1
      obtain ⟨f, hf, j, -, hxj⟩ := mem_selTags x rest hx2
      have heq : tagStr e.1 i = tagStr f.1 j := by rw [hxi, ← hxj]
      have hkey : e.1 = f.1 := (tagStr_inj e.1 f.1 i j heq).1
      exact hk1 (hkey ▸ List.mem_map_of_mem Prod.fst hf)

/-- C6: in every document emitted from a Selector output, the selector entry's
`"outbounds"` tag list (`selTags`, carried verbatim by `selectorOutbound` inside
`buildConfig`) equals, elementwise and in order, the tag list of the per-selection
outbound objects of the document, and contains no duplicates — so the two are in 1:1
correspondence with no dangling and no duplicate tags. -/
theorem C6_selector_tag_correspondence (tested : List Tested) :
    selTags (groupSelect tested)
        = ((groupSelect tested).flatMap groupOutbounds).map (fun ob => ob.tag)
      ∧ (selTags (groupSelect tested)).Nodup :=
  ⟨selTags_eq_map_tag _, nodup_selTags _ (nodup_keysOf_groupSelect tested)⟩

theorem selectGroups_no_http : ∀ m, ∀ e ∈ selectGroups true m, e.1 ≠ "http" := by
  intro m
  induction m with
  | nil => simp [selectGroups]
  | cons e rest ih =>
    intro f hf
    rw [selectGroups] at hf
    by_cases h : e.1 = "http"
    · rw [if_pos (by simp [h])] at hf
      exact ih f hf
    · rw [if_neg (by simp [h])] at hf
      rcases List.mem_cons.mp hf with h1 | h1
      · rw [h1]
        exact h
      · exact ih f h1

/-- C7: if at least one successful probe result uses a modern protocol
(hysteria2, shadowsocks, vmess, tuic, trojan — exactly the `has_modern` condition of
the source), the Selector emits no `"http"` group, and consequently no outbound of
the emitted document has type `"http"`. -/
theorem C7_http_dropped (tested : List Tested)
    (h : (tested.any fun t => decide (protoKey t ∈ modernProtocols)) = true) :
    "http" ∉ keysOf (groupSelect tested)
      ∧ ((buildConfig (groupSelect tested)).outbounds).filter
          (fun ob => decide (ob.type = "http")) = [] := by
  have h1 : ∀ e ∈ groupSelect tested, e.1 ≠ "http" := by
    rw [groupSelect, h]
    exact selectGroups_no_http _
  constructor
  · intro hk
    simp only [keysOf, List.mem_map] at hk
    obtain ⟨e, he, hek⟩ := hk
    exact h1 e he hek
  · rw [List.filter_eq_nil_iff]
    intro ob hob
    simp only [decide_eq_true_eq]
    revert hob
    intro hob
    simp only [buildConfig, List.mem_append] at hob
    rcases hob with (hsel | hmid) | hterm
    · by_cases he : groupSelect tested = []
      · rw [if_pos he] at hsel
        cases hsel
      · rw [if_neg he] at hsel
        simp only [List.mem_singleton] at hsel
        rw [hsel]
        simp [selectorOutbound]
    · rw [List.mem_flatMap] at hmid
      obtain ⟨e, he, hobe⟩ := hmid
      have ht : ob.type = e.1 := mem_groupObsAux_type e.1 ob e.2 0 hobe
      rw [ht]
      exact h1 e he
    · simp only [terminalOutbounds, List.mem_cons, List.mem_singleton] at hterm
      rcases hterm with h2 | h2 | h2
      · rw [h2]; simp
      · rw [h2]; simp
      · cases h2

/-- Witness for C7: one vmess and one http probe result; the http group is dropped. -/
theorem C7_witness :
    (([tVmess, tHttp].any fun t => decide (protoKey t ∈ modernProtocols)) = true)
      ∧ ("http" ∉ keysOf (groupSelect [tVmess, tHttp])
        ∧ ((buildConfig (groupSelect [tVmess, tHttp])).outbounds).filter
            (fun ob => decide (ob.type = "http")) = []) :=
  ⟨by decide, C7_http_dropped [tVmess, tHttp] (by decide)⟩

theorem mem_selTags_intro (table : List (String × List Tested))
    (e : String × List Tested) (he : e ∈ table) (hne : e.2 ≠ []) :
    tagStr e.1 0 ∈ selTags table := by
  rw [selTags, List.mem_flatMap]
  refine ⟨e, he, ?_⟩
  rw [List.mem_map]
  refine ⟨0, ?_, rfl⟩
  rw [List.mem_range]
  exact List.length_pos.mpr hne

/-- C10: whenever the Selector's output is non-empty, the selector entry's
`"default"` tag (priority hysteria2 > shadowsocks > vmess, else the first group,
always with index 0) is an element of the selector's own `"outbounds"` tag list —
which by C6 is exactly the set of tags of the emitted outbound objects. -/
theorem C10_default_tag_exists (tested : List Tested) (h : groupSelect tested ≠ []) :
    defaultTag (groupSelect tested) ∈ selTags (groupSelect tested) := by
  have hne : ∀ e ∈ groupSelect tested, e.2 ≠ [] := by
    intro e he
    have he2 : (e.1, e.2) ∈ groupSelect tested := by simpa using he
    exact (groupSelect_mem tested e.1 e.2 he2).2.1
  rw [defaultTag]
  cases hf : List.find? (fun p => (groupSelect tested).any fun e => e.1 = p)
      ["hysteria2", "shadowsocks", "vmess"] with
  | none =>
    cases hgs : groupSelect tested with
    | nil => exact absurd hgs h
    | cons e rest =>
      have he : e ∈ groupSelect tested := by
        rw [hgs]
        exact List.mem_cons_self e rest
      have hmem := mem_selTags_intro (groupSelect tested) e he (hne e he)
      simpa [hgs] using hmem
  | some p =>
    have hp := List.find?_some hf
    rw [List.any_eq_true] at hp
    obtain ⟨e, he, hep⟩ := hp
    have hep2 : e.1 = p := of_decide_eq_true hep
    have hmem := mem_selTags_intro (groupSelect tested) e he (hne e he)
    rwa [hep2] at hmem

/-- Witness for C10 at a concrete one-element probe set. -/
theorem C10_witness :
    groupSelect [tVmess] ≠ []
      ∧ defaultTag (groupSelect [tVmess]) ∈ selTags (groupSelect [tVmess]) :=
  ⟨by decide, C10_default_tag_exists [tVmess] (by decide)⟩

theorem countP_groupOutbounds_ne (p hst : String) (prt : ℤ) (e : String × List Tested)
    (h : e.1 ≠ p) : (groupOutbounds e).countP (tripleP p hst prt) = 0 := by
  rw [List.countP_eq_zero]
  intro ob hob
  have ht : ob.type = e.1 := mem_groupObsAux_type e.1 ob e.2 0 hob
  simp [tripleP, ht, h]

theorem countP_flatMap_groupOutbounds_zero (p hst : String) (prt : ℤ) :
    ∀ m : List (String × List Tested), p ∉ keysOf m →
    (m.flatMap groupOutbounds).countP (tripleP p hst prt) = 0 := by
  intro m
  induction m with
  | nil => intro _; rfl
  | cons e rest ih =>
    intro hp
    simp only [keysOf, List.map_cons, List.mem_cons] at hp
    push_neg at hp
    rw [List.flatMap_cons, List.countP_append,
      countP_groupOutbounds_ne p hst prt e (fun hh => hp.1 hh.symm), ih ?_]
    exact hp.2

theorem countP_flatMap_groupOutbounds_le (p hst : String) (prt : ℤ) :
    ∀ m : List (String × List Tested), (keysOf m).Nodup →
    (∀ e ∈ m, e.2.length ≤ max_proxies_per_type) →
    (m.flatMap groupOutbounds).countP (tripleP p hst prt) ≤ max_proxies_per_type := by
  intro m
  induction m with
  | nil =>
    intro _ _
    simp [max_proxies_per_type]
  | cons e rest ih =>
    intro hnd hlen
    simp only [keysOf, List.map_cons, List.nodup_cons] at hnd
    rw [List.flatMap_cons, List.countP_append]
    by_cases hep : e.1 = p
    · have hz : (rest.flatMap groupOutbounds).countP (tripleP p hst prt) = 0 :=
        countP_flatMap_groupOutbounds_zero p hst prt rest (hep ▸ hnd.1)
      have hle : (groupOutbounds e).countP (tripleP p hst prt) ≤ e.2.length := by
        calc (groupOutbounds e).countP (tripleP p hst prt)
            ≤ (groupOutbounds e).length := List.countP_le_length _
          _ = e.2.length := length_groupObsAux e.1 e.2 0
      have hl := hlen e (List.mem_cons_self e rest)
      omega
    · rw [countP_groupOutbounds_ne p hst prt e hep]
      have := ih hnd.2 (fun f hf => hlen f (List.mem_cons_of_mem e hf))
      omega

/-- C5 (amended): no deduplication is performed anywhere in the pipeline, so a
(protocol, host, port) triple can appear several times in the emitted document — but
at most `max_proxies_per_type = 3` times, because all outbounds carrying the triple
sit in the single group keyed by that protocol, and every group is truncated to 3. -/
theorem C5_triple_bounded (tested : List Tested) (p hst : String) (prt : ℤ) :
    ((buildConfig (groupSelect tested)).outbounds).countP (tripleP p hst prt)
      ≤ max_proxies_per_type := by
  rw [buildConfig]
  simp only [List.countP_append]
  have hsel : (if groupSelect tested = [] then ([] : List Outbound)
      else [selectorOutbound (groupSelect tested)]).countP (tripleP p hst prt) = 0 := by
    by_cases he : groupSelect tested = [] <;>
      simp [he, selectorOutbound, tripleP, List.countP_cons]
  have hterm : terminalOutbounds.countP (tripleP p hst prt) = 0 := by
    simp [terminalOutbounds, tripleP, List.countP_cons]
  have hmid := countP_flatMap_groupOutbounds_le p hst prt (groupSelect tested)
    (nodup_keysOf_groupSelect tested)
    (fun e he => (groupSelect_mem tested e.1 e.2 (by simpa using he)).2.2)
  omega

unseal Rat.add Rat.mul Rat.inv in
/-- C5 (counterexample): two descriptors with identical (protocol, host, port) — as
published by two different sources — both survive probing and selection, and the
emitted document contains two outbound entries with the triple
(shadowsocks, 1.2.3.4, 443), refuting "at most once". -/
theorem C5_counterexample :
    ((buildConfig (selectBest exNetUp [pDup, pDup])).outbounds).countP
      (tripleP "shadowsocks" "1.2.3.4" 443) = 2 :=
  rfl

/-- C3 (counterexample): when all four sources fail, `fetch_proxies` silently injects
the hardcoded fallback descriptor (so the list is not empty), and the run writes no
document at all — `runScript` completes without error but returns `none` instead of
emitting a direct/block-only document. -/
theorem C3_counterexample :
    fetch_proxies allFailResponses = [fallbackProxy]
      ∧ runScript allFailResponses exNetDown true = .ok none :=
  ⟨rfl, rfl⟩

/-- C3 (amended): with zero descriptors fetched, the pipeline does not crash, but it
behaves differently from the claim: `fetch_proxies` injects the hardcoded fallback
descriptor, and if no probe succeeds (in particular the fallback's), `run` skips
`update_singbox_config` entirely, so no document is emitted at all — the previous
document on disk, whatever it was, is left in place. -/
theorem C3_zero_fetch_behaviour (responses : List Fetched) (net : Proxy → ProbeOutcome)
    (writeOk : Bool) (h0 : rawFetched responses = [])
    (h1 : testProxy net fallbackProxy = none) :
    fetch_proxies responses = [fallbackProxy]
      ∧ runScript responses net writeOk = .ok none := by
  have hf : fetch_proxies responses = [fallbackProxy] := by
    rw [fetch_proxies, h0]
    rfl
  refine ⟨hf, ?_⟩
  rw [runScript, hf]
  have hsel : selectBest net [fallbackProxy] = [] := by
    rw [selectBest, List.filterMap_cons, h1]
    rfl
  simp [hsel]

/-- Witness for the amended C3: all sources fail and every connect fails. -/
theorem C3_witness :
    rawFetched allFailResponses = []
      ∧ testProxy exNetDown fallbackProxy = none
      ∧ (fetch_proxies allFailResponses = [fallbackProxy]
        ∧ runScript allFailResponses exNetDown true = .ok none) :=
  ⟨rfl, rfl, C3_zero_fetch_behaviour allFailResponses exNetDown true rfl rfl⟩

unseal Rat.add Rat.mul Rat.inv in
/-- C4 (counterexample): a run that reaches the persistence step with a non-empty
selection and a failing write still terminates normally with exit code 0 — the
`except` clause of `update_singbox_config` swallows the error and only logs it, so a
persistence failure is not fatal and does not yield a non-zero exit. -/
theorem C4_counterexample :
    selectBest exNetUp (fetch_proxies oneGoodResponse)
        = [("shadowsocks",
            [{ p := pDup, latency := 1, speed := 1, score := 501, lastTested := 0 }])]
      ∧ runScript oneGoodResponse exNetUp false = .ok none
      ∧ exitCode oneGoodResponse exNetUp false = 0 :=
  ⟨rfl, rfl, rfl⟩

theorem runScript_ok (responses : List Fetched) (net : Proxy → ProbeOutcome)
    (writeOk : Bool) : ∃ v, runScript responses net writeOk = Except.ok v := by
  rw [runScript]
  by_cases h1 : fetch_proxies responses = []
  · simp [h1]
  · by_cases h2 : selectBest net (fetch_proxies responses) = [] <;> simp [h1, h2]

/-- C4 (amended): no error in the pipeline is fatal, persistence failure included:
every exception is caught (per source, per line, per probe, and the whole of
`update_singbox_config` including the write), so the process always exits 0; a failed
write merely leaves no new document, returning `none`.  (Modelled over well-typed
descriptor payloads.) -/
theorem C4_exit_always_zero (responses : List Fetched) (net : Proxy → ProbeOutcome)
    (writeOk : Bool) (table : List (String × List Tested)) :
    exitCode responses net writeOk = 0 ∧ update_singbox_config false table = none := by
  obtain ⟨v, hv⟩ := runScript_ok responses net writeOk
  rw [exitCode, hv]
  exact ⟨rfl, rfl⟩

end PM
